import Mathlib

/-!
# paletteGenerator

A shallow embedding of `paletteGenerator.go` and the properties of its
functions.

Modelling conventions.

* Go `int` values are `Int`; the arithmetic is exact (no 64-bit wrap-around).
  Go's `/` on integers truncates toward zero, which is `Int.tdiv`.
* `findEdge` is written in Go with `float64`. It has two embeddings here.
  `findEdge` reads lines 44-45 over the real numbers (`Real.sqrt`, a real cube
  root, `Int.ceil`), i.e. the floating-point operations are read as the exact
  operations they approximate; the statements that quantify over every count
  are proved on it. `findEdgeFloat64` evaluates the same two lines in IEEE-754
  binary64, bit for bit, with a port of Go's `math.Cbrt`; it is computable and
  is used to evaluate the code at concrete counts. The two differ at a few
  counts `n^3 - n^2`, where rounding lifts the value under `math.Ceil` just
  above the integer `n` (180 is the first).
* `math.Ceil(float64(nodesPerSide)/6)` is the exact ceiling of a rational; the
  comparisons `math.Abs(float64(a - b)) >= skipThreshold` compare two integer
  valued floats and are embedded as integer comparisons.
* `rand.Perm` is the only source of randomness: the slice it returns is a
  parameter (`randomColors`) of the embedding of `GeneratePalette`.
* A Go run ends in one of three ways, see `Outcome`: a palette with a nil
  error, a nil palette with an error, or a run-time panic (index out of
  range, integer division by zero).
-/

namespace PaletteGenerator

/-! ## Data model -/

/-- The error text of the constant block (line 12). -/
def nonPositiveNumber : String := "Asked for a non-positive number of colors"

/-- Go's `color.RGBA`: four `uint8` channels, kept as natural numbers. -/
structure RGBA where
  R : Nat
  G : Nat
  B : Nat
  A : Nat
  deriving DecidableEq, Repr

/-- How a call of `GeneratePalette` ends. -/
inductive Outcome where
  | ok (colors : List RGBA)
  | error (msg : String)
  | panic
  deriving DecidableEq, Repr

/-- Go's conversion `uint8(v)` of an `int`: the value modulo 256. -/
def uint8 (v : Int) : Nat := (v % 256).toNat

/-! ## The functions of the source -/

/-- Lines 23-29: single index to triple index for an `edge*edge*edge` array. -/
def coordinatesFromIndex (index : Int) (edge : Int) : Int × Int × Int :=
  let x := Int.tdiv index (edge * edge)
  let dummy := index - x * edge * edge
  let y := Int.tdiv dummy edge
  let z := dummy - y * edge
  (x, y, z)

/-- Lines 32-37: perceptual triple to RGB triple, with truncating halving. -/
def rotateColorSpace (green_magenta red_cyan blue_yellow : Int) : Int × Int × Int :=
  let red := Int.tdiv (green_magenta + blue_yellow) 2
  let green := Int.tdiv (red_cyan + blue_yellow) 2
  let blue := Int.tdiv (green_magenta + red_cyan) 2
  (red, green, blue)

/-- Go's `math.Cbrt` over the reals: the odd cube root. -/
noncomputable def Cbrt (x : ℝ) : ℝ :=
  if 0 ≤ x then x ^ ((1 : ℝ) / 3) else -((-x) ^ ((1 : ℝ) / 3))

/-- Lines 40-46, over exact real arithmetic and unbounded integers (the idealised
reading; `findEdgeFloat64` is the `float64` reading). -/
noncomputable def findEdge (numberOfColors : Int) : Int :=
  let delta : ℝ :=
    Cbrt ((Real.sqrt (((27 * 27 * numberOfColors * numberOfColors
        + 27 * 4 * numberOfColors : Int) : ℝ))
      + ((27 * numberOfColors + 2 : Int) : ℝ)) / 2)
  ⌈(delta + 1 / delta + 1) / 3⌉

/-- Line 55: `math.Ceil(float64(nodesPerSide)/6)`. -/
def skipThreshold (nodesPerSide : Int) : Int := ⌈(nodesPerSide : ℚ) / 6⌉

/-- Line 65: the test that keeps a node away from the diagonal of the cube. -/
def accepted (threshold : Int) (x y z : Int) : Bool :=
  decide (threshold ≤ |x - y|) || decide (threshold ≤ |y - z|) || decide (threshold ≤ |x - z|)

/-- Lines 70-72: the colour stored for an accepted node. -/
def colorOf (nodeSize : Int) (x y z : Int) : RGBA :=
  let c := rotateColorSpace (x * nodeSize) (y * nodeSize) (z * nodeSize)
  { R := uint8 c.1, G := uint8 c.2.1, B := uint8 c.2.2, A := 255 }

/-- Lines 59-73: the two nested loops. The list is the part of `randomColors`
from position `j` on, the number is how many colours are still to be stored.
`none` is a run-time panic: reading `randomColors[j]` past the end of the
slice, or the division by `edge*edge` in `coordinatesFromIndex` when the edge
is zero. -/
def scan (nodesPerSide threshold nodeSize : Int) : Nat → List Int → Option (List RGBA)
  | 0, _ => some []
  | _ + 1, [] => none
  | k + 1, v :: rest =>
    if nodesPerSide = 0 then none
    else
      let c := coordinatesFromIndex v nodesPerSide
      if accepted threshold c.1 c.2.1 c.2.2 then
        (scan nodesPerSide threshold nodeSize k rest).map
          (fun cs => colorOf nodeSize c.1 c.2.1 c.2.2 :: cs)
      else scan nodesPerSide threshold nodeSize (k + 1) rest

/-- Lines 55-74: `GeneratePalette` after the call of `findEdge`, with the
result of `rand.Perm` as `randomColors`. -/
def generateFrom (nodesPerSide numberOfColors : Int) (randomColors : List Int) : Outcome :=
  if nodesPerSide - 1 = 0 then Outcome.panic
  else
    let nodeSize := Int.tdiv 255 (nodesPerSide - 1)
    match scan nodesPerSide (skipThreshold nodesPerSide) nodeSize numberOfColors.toNat
        randomColors with
    | some colors => Outcome.ok colors
    | none => Outcome.panic

/-- Lines 49-75. -/
noncomputable def GeneratePalette (numberOfColors : Int) (randomColors : List Int) : Outcome :=
  if numberOfColors ≤ 0 then Outcome.error nonPositiveNumber
  else generateFrom (findEdge numberOfColors) numberOfColors randomColors

/-! ## Auxiliary notions used in the statements -/

/-- The slice `0, 1, ..., n - 1` that `rand.Perm n` permutes. -/
def indices (n : Int) : List Int := (List.range n.toNat).map Int.ofNat

/-- The slices `rand.Perm (edge^3)` can return. -/
def IsPermOfCube (edge : Int) (randomColors : List Int) : Prop :=
  List.Perm randomColors (indices (edge * edge * edge))

/-- The filter of line 65 on the node with flat index `index`. -/
def nodeAccepted (edge threshold : Int) (index : Int) : Bool :=
  accepted threshold (coordinatesFromIndex index edge).1
    (coordinatesFromIndex index edge).2.1 (coordinatesFromIndex index edge).2.2

/-- The colour of lines 70-72 for the node with flat index `index`. -/
def nodeColor (edge nodeSize : Int) (index : Int) : RGBA :=
  colorOf nodeSize (coordinatesFromIndex index edge).1
    (coordinatesFromIndex index edge).2.1 (coordinatesFromIndex index edge).2.2

/-- The closed form of lines 44-45 under `math.Ceil`, evaluated over the reals. The
code evaluates the same expression in `float64`, see `findEdgeFloat64`. -/
noncomputable def edgeRoot (numberOfColors : Int) : ℝ :=
  let delta : ℝ :=
    Cbrt ((Real.sqrt (((27 * 27 * numberOfColors * numberOfColors
        + 27 * 4 * numberOfColors : Int) : ℝ))
      + ((27 * numberOfColors + 2 : Int) : ℝ)) / 2)
  (delta + 1 / delta + 1) / 3

/-- The number of nodes `(x, y, z)` of `[0, edge)^3` that pass the filter. -/
def acceptedNodes (edge : Int) : Nat :=
  ((indices edge).map (fun x =>
    ((indices edge).map (fun y =>
      (indices edge).countP (fun z => accepted (skipThreshold edge) x y z))).sum)).sum

/-! ## Lines 44-45 in IEEE-754 binary64

A `float64` is kept as its 64-bit pattern (what `math.Float64bits` returns), a natural
number below `2^64`. Every arithmetic operation computes the exact result and rounds it
once to the nearest representable value, ties to even, as the hardware does; no two
operations are fused. The fragment covers zero and the normal numbers: an operation
returns `none` when an operand or the result is subnormal, infinite or not a number
(and on a division by zero), which does not happen on the inputs evaluated below. -/

/-- A finite `float64` value `(-1)^neg * m * 2^e`. -/
structure Dyadic where
  neg : Bool
  m : Nat
  e : Int
  deriving DecidableEq, Repr

/-- The signed integer mantissa. -/
def Dyadic.toInt (d : Dyadic) : Int := if d.neg then -(d.m : Int) else d.m

/-- The value of a bit pattern: sign bit, 11 exponent bits (bias 1023), 52 fraction bits
with the implicit leading one. -/
def f64Decode (b : Nat) : Option Dyadic :=
  let biased := (b >>> 52) % 2048
  let frac := b % 2 ^ 52
  let s := decide ((b >>> 63) % 2 = 1)
  if biased = 0 then (if frac = 0 then some ⟨s, 0, 0⟩ else none)
  else if biased = 2047 then none
  else some ⟨s, 2 ^ 52 + frac, (biased : Int) - 1075⟩

/-- The position of the leading one of `n`, by halving: at most `fuel` steps. -/
def topBitAux : Nat → Nat → Nat
  | 0, _ => 0
  | fuel + 1, n => if n ≤ 1 then 0 else topBitAux fuel (n / 2) + 1

/-- The position of the leading one (`floor (log2 n)` for `n ≥ 1`). -/
def topBit (n : Nat) : Nat := topBitAux n n

/-- Round `m * 2^e` (`m > 0`) to a 53-bit mantissa, to nearest, ties to even. -/
def roundTo53 (m : Nat) (e : Int) : Nat × Int :=
  let top := topBit m
  if top ≤ 52 then (m <<< (52 - top), e - ((52 - top : Nat) : Int))
  else
    let d := top - 52
    let q := m >>> d
    let r := m % 2 ^ d
    let half := 2 ^ (d - 1)
    let q2 := if half < r ∨ (r = half ∧ q % 2 = 1) then q + 1 else q
    if q2 = 2 ^ 53 then (2 ^ 52, e + (d : Int) + 1) else (q2, e + (d : Int))

/-- The bit pattern of `(-1)^neg * m * 2^e` rounded to `float64`. -/
def f64Encode (neg : Bool) (m : Nat) (e : Int) : Option Nat :=
  if m = 0 then some (if neg then 2 ^ 63 else 0)
  else
    let r := roundTo53 m e
    let biased := r.2 + 1075
    if 1 ≤ biased ∧ biased ≤ 2046 then
      some ((if neg then 2 ^ 63 else 0) + biased.toNat * 2 ^ 52 + (r.1 - 2 ^ 52))
    else none

/-- Unary minus: the sign bit flipped. -/
def f64Neg (b : Nat) : Nat := if b < 2 ^ 63 then b + 2 ^ 63 else b - 2 ^ 63

/-- The `float64` sum `a + b`. -/
def f64Add (a b : Nat) : Option Nat := do
  let x ← f64Decode a
  let y ← f64Decode b
  if x.m = 0 ∧ y.m = 0 then
    some (if x.neg ∧ y.neg then 2 ^ 63 else 0)
  else
    let e := min x.e y.e
    let s : Int := x.toInt * 2 ^ (x.e - e).toNat + y.toInt * 2 ^ (y.e - e).toNat
    f64Encode (decide (s < 0)) s.natAbs e

/-- The `float64` difference `a - b`. -/
def f64Sub (a b : Nat) : Option Nat := f64Add a (f64Neg b)

/-- The `float64` product `a * b`. -/
def f64Mul (a b : Nat) : Option Nat := do
  let x ← f64Decode a
  let y ← f64Decode b
  f64Encode (x.neg != y.neg) (x.m * y.m) (x.e + y.e)

/-- The `float64` quotient `a / b`: 57 quotient bits and a sticky bit for the remainder
decide the rounding. -/
def f64Div (a b : Nat) : Option Nat := do
  let x ← f64Decode a
  let y ← f64Decode b
  if y.m = 0 then none
  else
    let n := x.m <<< 56
    let q := n / y.m
    let sticky := if n % y.m = 0 then 0 else 1
    f64Encode (x.neg != y.neg) (2 * q + sticky) (x.e - y.e - 57)

/-- Integer square root, bit by bit from bit `k - 1` down, with `r` found so far. -/
def isqrtAux (n : Nat) : Nat → Nat → Nat
  | 0, r => r
  | k + 1, r =>
    if (r + 2 ^ k) * (r + 2 ^ k) ≤ n then isqrtAux n k (r + 2 ^ k) else isqrtAux n k r

/-- The integer square root `floor (sqrt n)` of `n < 2^128`. -/
def isqrt (n : Nat) : Nat := isqrtAux n 64 0

/-- Go's `math.Sqrt`, correctly rounded: the integer square root of the mantissa scaled
by `2^64` and a sticky bit decide the rounding. -/
def f64Sqrt (a : Nat) : Option Nat := do
  let x ← f64Decode a
  if x.m = 0 then some a
  else if x.neg then none
  else
    let m2 := if x.e % 2 = 0 then x.m else 2 * x.m
    let e2 := if x.e % 2 = 0 then x.e else x.e - 1
    let n := m2 <<< 64
    let s := isqrt n
    let sticky := if s * s = n then 0 else 1
    f64Encode false (2 * s + sticky) ((e2 - 64) / 2 - 1)

/-- Go's conversion `float64(z)` of an `int`. -/
def f64OfInt (z : Int) : Option Nat := f64Encode (decide (z < 0)) z.natAbs 0

/-- Go's `int(math.Ceil(a))`. -/
def f64CeilToInt (a : Nat) : Option Int := do
  let x ← f64Decode a
  if 0 ≤ x.e then some (x.toInt * 2 ^ x.e.toNat)
  else some (-((-x.toInt) / 2 ^ (-x.e).toNat))

/-- The constant `B1 = 715094163` of Go's `math.Cbrt`. -/
def cbrtB1 : Nat := 715094163

/-- The constant `C = 19/35 = 5.42857142857142815906e-01` of Go's `math.Cbrt`. -/
def cbrtC : Nat := 0x3FE15F15F15F15F1

/-- The constant `D = -864/1225 = -7.05306122448979611050e-01` of Go's `math.Cbrt`. -/
def cbrtD : Nat := 0xBFE691DE2532C834

/-- The constant `E = 99/70 = 1.41428571428571436819e+00` of Go's `math.Cbrt`. -/
def cbrtE : Nat := 0x3FF6A0EA0EA0EA0F

/-- The constant `F = 45/28 = 1.60714285714285720630e+00` of Go's `math.Cbrt`. -/
def cbrtF : Nat := 0x3FF9B6DB6DB6DB6E

/-- The constant `G = 5/14 = 3.57142857142857150787e-01` of Go's `math.Cbrt`. -/
def cbrtG : Nat := 0x3FD6DB6DB6DB6DB7

/-- First half of Go's `math.Cbrt` on a positive normal `x`: the rough estimate
`Float64frombits(Float64bits(x)/3 + B1<<32)`, then `r := t*t/x`, `s := C + r*t` and
`t *= G + F/(s+E+D/s)`. -/
def cbrtEstimate (x : Nat) : Option Nat := do
  let t0 := x / 3 + cbrtB1 <<< 32
  let r ← f64Div (← f64Mul t0 t0) x
  let s ← f64Add cbrtC (← f64Mul r t0)
  let u ← f64Add (← f64Add s cbrtE) (← f64Div cbrtD s)
  let v ← f64Add cbrtG (← f64Div cbrtF u)
  f64Mul t0 v

/-- Second half of Go's `math.Cbrt`: the chop
`Float64frombits(Float64bits(t)&(0xFFFFFFFFC<<28) + 1<<30)`, then one Newton step
`s = t*t`, `r = x/s`, `w := t+t`, `r = (r-t)/(w+r)`, `t = t + t*r`. -/
def cbrtNewton (x t1 : Nat) : Option Nat := do
  let t2 := (t1 &&& (0xFFFFFFFFC <<< 28)) + 1 <<< 30
  let s2 ← f64Mul t2 t2
  let r2 ← f64Div x s2
  let w ← f64Add t2 t2
  let r3 ← f64Div (← f64Sub r2 t2) (← f64Add w r2)
  f64Add t2 (← f64Mul t2 r3)

/-- Go's `math.Cbrt` (the portable implementation of the standard library) in `float64`:
zero is returned as it is, a negative argument is negated before and after. -/
def CbrtFloat64 (x0 : Nat) : Option Nat := do
  let d ← f64Decode x0
  if d.m = 0 then some x0
  else
    let x := if d.neg then f64Neg x0 else x0
    let t3 ← cbrtNewton x (← cbrtEstimate x)
    some (if d.neg then f64Neg t3 else t3)

/-- The value of an `int` expression after 64-bit two's complement wrap-around. -/
def wrapInt64 (z : Int) : Int := (z + 2 ^ 63) % 2 ^ 64 - 2 ^ 63

/-- Lines 40-46 in `float64`: `0x4000000000000000`, `0x3FF0000000000000` and
`0x4008000000000000` are the constants `2`, `1` and `3`. -/
def findEdgeFloat64 (numberOfColors : Int) : Option Int := do
  let a ← f64OfInt (wrapInt64 (27 * 27 * numberOfColors * numberOfColors
    + 27 * 4 * numberOfColors))
  let b ← f64OfInt (wrapInt64 (27 * numberOfColors + 2))
  let root ← f64Sqrt a
  let sum ← f64Add root b
  let delta ← CbrtFloat64 (← f64Div sum 0x4000000000000000)
  let inv ← f64Div 0x3FF0000000000000 delta
  let num ← f64Add (← f64Add delta inv) 0x3FF0000000000000
  f64CeilToInt (← f64Div num 0x4008000000000000)

/-! ## The index mapper -/

theorem skipThreshold_eq (n : Int) : skipThreshold n = (n + 5) / 6 := by
  unfold skipThreshold
  rw [Int.ceil_eq_iff]
  have h6 : (0 : ℚ) < 6 := by norm_num
  have h1 := Int.ediv_add_emod (n + 5) 6
  have h2 := Int.emod_nonneg (n + 5) (by norm_num : (6 : Int) ≠ 0)
  have h3 := Int.emod_lt_of_pos (n + 5) (by norm_num : (0 : Int) < 6)
  constructor
  · rw [lt_div_iff₀ h6]
    have : (((n + 5) / 6 : Int) - 1) * 6 < n := by omega
    exact_mod_cast this
  · rw [div_le_iff₀ h6]
    have : n ≤ ((n + 5) / 6 : Int) * 6 := by omega
    exact_mod_cast this

theorem coordinatesFromIndex_digits (index edge : Int) (hedge : 1 ≤ edge) (h0 : 0 ≤ index) :
    coordinatesFromIndex index edge
      = (index / (edge * edge), index % (edge * edge) / edge, index % edge) := by
  have he2 : 0 ≤ edge * edge := by positivity
  have hx : Int.tdiv index (edge * edge) = index / (edge * edge) := Int.tdiv_eq_ediv h0 he2
  have hd : index - index / (edge * edge) * edge * edge = index % (edge * edge) := by
    have := Int.ediv_add_emod index (edge * edge)
    linarith
  have hd0 : 0 ≤ index % (edge * edge) := Int.emod_nonneg _ (by positivity)
  have hy : Int.tdiv (index % (edge * edge)) edge = index % (edge * edge) / edge :=
    Int.tdiv_eq_ediv hd0 (by omega)
  have hz : index % (edge * edge) - index % (edge * edge) / edge * edge = index % edge := by
    have h1 := Int.ediv_add_emod (index % (edge * edge)) edge
    have h2 : index % (edge * edge) % edge = index % edge :=
      Int.emod_emod_of_dvd index (dvd_mul_right edge edge)
    linarith
  simp only [coordinatesFromIndex, hx, hd, hy, hz]

theorem coordinatesFromIndex_bounds (index edge : Int) (hedge : 1 ≤ edge) (h0 : 0 ≤ index)
    (hlt : index < edge * edge * edge) :
    (0 ≤ (coordinatesFromIndex index edge).1 ∧ (coordinatesFromIndex index edge).1 < edge)
    ∧ (0 ≤ (coordinatesFromIndex index edge).2.1 ∧ (coordinatesFromIndex index edge).2.1 < edge)
    ∧ (0 ≤ (coordinatesFromIndex index edge).2.2
        ∧ (coordinatesFromIndex index edge).2.2 < edge) := by
  rw [coordinatesFromIndex_digits index edge hedge h0]
  have hpos : 0 < edge := by omega
  have he2 : 0 < edge * edge := by positivity
  have hm0 : 0 ≤ index % (edge * edge) := Int.emod_nonneg _ (ne_of_gt he2)
  have hm1 : index % (edge * edge) < edge * edge := Int.emod_lt_of_pos _ he2
  refine ⟨⟨Int.ediv_nonneg h0 he2.le, ?_⟩, ⟨Int.ediv_nonneg hm0 hpos.le, ?_⟩,
    ⟨Int.emod_nonneg _ (ne_of_gt hpos), Int.emod_lt_of_pos _ hpos⟩⟩
  · exact Int.ediv_lt_of_lt_mul he2 (by linarith)
  · exact Int.ediv_lt_of_lt_mul hpos hm1

/-- C6: for `edge ≥ 1` and `0 ≤ index < edge^3`, the triple `(x, y, z)` returned by
`coordinatesFromIndex index edge` rebuilds the index: `x*edge^2 + y*edge + z = index`. -/
theorem coordinatesFromIndex_roundtrip (index edge : Int) (hedge : 1 ≤ edge)
    (h0 : 0 ≤ index) (hlt : index < edge ^ 3) :
    (coordinatesFromIndex index edge).1 * edge ^ 2
      + (coordinatesFromIndex index edge).2.1 * edge
      + (coordinatesFromIndex index edge).2.2 = index := by
  simp only [coordinatesFromIndex]
  ring

theorem coordinatesFromIndex_roundtrip_witness :
    (1 : Int) ≤ 3 ∧ (0 : Int) ≤ 17 ∧ (17 : Int) < 3 ^ 3
      ∧ (coordinatesFromIndex 17 3).1 * 3 ^ 2 + (coordinatesFromIndex 17 3).2.1 * 3
          + (coordinatesFromIndex 17 3).2.2 = 17 :=
  ⟨by decide, by decide, by decide,
    coordinatesFromIndex_roundtrip 17 3 (by decide) (by decide) (by decide)⟩

/-- C7: for `edge ≥ 1` and `0 ≤ index < edge^3`, each of the three components returned
by `coordinatesFromIndex index edge` lies in `[0, edge - 1]`. -/
theorem coordinatesFromIndex_in_cube (index edge : Int) (hedge : 1 ≤ edge)
    (h0 : 0 ≤ index) (hlt : index < edge ^ 3) :
    (0 ≤ (coordinatesFromIndex index edge).1 ∧ (coordinatesFromIndex index edge).1 ≤ edge - 1)
    ∧ (0 ≤ (coordinatesFromIndex index edge).2.1
        ∧ (coordinatesFromIndex index edge).2.1 ≤ edge - 1)
    ∧ (0 ≤ (coordinatesFromIndex index edge).2.2
        ∧ (coordinatesFromIndex index edge).2.2 ≤ edge - 1) := by
  have h := coordinatesFromIndex_bounds index edge hedge h0 (by linarith [pow_succ edge 2, sq edge])
  omega

theorem coordinatesFromIndex_in_cube_witness :
    (0 ≤ (coordinatesFromIndex 26 3).1 ∧ (coordinatesFromIndex 26 3).1 ≤ 3 - 1)
    ∧ (0 ≤ (coordinatesFromIndex 26 3).2.1 ∧ (coordinatesFromIndex 26 3).2.1 ≤ 3 - 1)
    ∧ (0 ≤ (coordinatesFromIndex 26 3).2.2 ∧ (coordinatesFromIndex 26 3).2.2 ≤ 3 - 1) :=
  coordinatesFromIndex_in_cube 26 3 (by decide) (by decide) (by decide)

/-- C8: for `edge ≥ 1` and `0 ≤ index < edge^3`, `coordinatesFromIndex index edge` is the
triple of base-`edge` digits of `index`: `x = index / edge^2`,
`y = (index mod edge^2) / edge`, `z = index mod edge`, although the code obtains `y` and
`z` by subtraction. -/
theorem coordinatesFromIndex_base_digits (index edge : Int) (hedge : 1 ≤ edge)
    (h0 : 0 ≤ index) (hlt : index < edge ^ 3) :
    coordinatesFromIndex index edge
      = (index / edge ^ 2, index % edge ^ 2 / edge, index % edge) := by
  rw [coordinatesFromIndex_digits index edge hedge h0, sq]

theorem coordinatesFromIndex_base_digits_witness :
    coordinatesFromIndex 17 3 = (17 / 3 ^ 2, 17 % 3 ^ 2 / 3, 17 % 3) :=
  coordinatesFromIndex_base_digits 17 3 (by decide) (by decide) (by decide)

/-! ## The edge solver over exact arithmetic -/

theorem Cbrt_pos {x : ℝ} (hx : 0 < x) : 0 < Cbrt x := by
  unfold Cbrt
  rw [if_pos hx.le]
  exact Real.rpow_pos_of_pos hx _

theorem Cbrt_cube {x : ℝ} (hx : 0 ≤ x) : Cbrt x ^ 3 = x := by
  unfold Cbrt
  rw [if_pos hx, ← Real.rpow_natCast, ← Real.rpow_mul hx]
  norm_num

theorem findEdge_eq_ceil (c : Int) : findEdge c = ⌈edgeRoot c⌉ := rfl

/-- The value under the ceiling is at least one and solves `n^3 - n^2 = c`. -/
theorem edgeRoot_spec (c : Int) (hc : 1 ≤ c) :
    1 ≤ edgeRoot c ∧ edgeRoot c ^ 3 - edgeRoot c ^ 2 = c := by
  have hcR : (1 : ℝ) ≤ c := by exact_mod_cast hc
  set S : ℝ := Real.sqrt (((27 * 27 * c * c + 27 * 4 * c : Int) : ℝ)) with hS
  set A : ℝ := ((27 * c + 2 : Int) : ℝ) with hA
  have hA' : A = 27 * (c : ℝ) + 2 := by rw [hA]; push_cast; ring
  have hrad : (((27 * 27 * c * c + 27 * 4 * c : Int) : ℝ)) = A ^ 2 - 4 := by
    rw [hA']; push_cast; ring
  have hrad0 : (0 : ℝ) ≤ A ^ 2 - 4 := by rw [hA']; nlinarith
  have hS0 : 0 ≤ S := Real.sqrt_nonneg _
  have hS2 : S ^ 2 = A ^ 2 - 4 := by
    rw [hS, hrad]; exact Real.sq_sqrt hrad0
  have hApos : 0 < A := by rw [hA']; linarith
  have hX : 0 < (S + A) / 2 := by positivity
  set d : ℝ := Cbrt ((S + A) / 2) with hd
  have hdpos : 0 < d := Cbrt_pos hX
  have hd3 : d ^ 3 = (S + A) / 2 := Cbrt_cube hX.le
  have hroot : edgeRoot c = (d + 1 / d + 1) / 3 := rfl
  have hinv3 : (1 / d) ^ 3 = (A - S) / 2 := by
    rw [one_div, inv_pow, hd3]
    rw [inv_eq_iff_eq_inv, ← one_div, eq_div_iff (by nlinarith)]
    nlinarith
  have hdd : d * (1 / d) = 1 := by field_simp
  set e : ℝ := 1 / d with he
  have hepos : 0 < e := by rw [he]; positivity
  rw [hroot]
  constructor
  · nlinarith [sq_nonneg (d - e)]
  · have h3 : (d + e) ^ 3 - 3 * (d + e) = A := by
      have : (d + e) ^ 3 - 3 * (d + e) = d ^ 3 + e ^ 3 + 3 * (d * e - 1) * (d + e) := by ring
      rw [this, hdd, hd3, hinv3]; ring
    have : ((d + e + 1) / 3) ^ 3 - ((d + e + 1) / 3) ^ 2
        = ((d + e) ^ 3 - 3 * (d + e) - 2) / 27 := by ring
    rw [this, h3, hA']; ring

theorem cubic_le_iff {r : ℝ} (hr : 1 ≤ r) {m : ℝ} (hm : 1 ≤ m) :
    r ≤ m ↔ r ^ 3 - r ^ 2 ≤ m ^ 3 - m ^ 2 := by
  have key : m ^ 3 - m ^ 2 - (r ^ 3 - r ^ 2)
      = (m - r) * (m ^ 2 + m * r + r ^ 2 - m - r) := by ring
  have hpos : 0 < m ^ 2 + m * r + r ^ 2 - m - r := by nlinarith
  constructor
  · intro h
    have : 0 ≤ (m - r) * (m ^ 2 + m * r + r ^ 2 - m - r) :=
      mul_nonneg (by linarith) hpos.le
    linarith
  · intro h
    by_contra hlt
    push_neg at hlt
    have : (m - r) * (m ^ 2 + m * r + r ^ 2 - m - r) < 0 :=
      mul_neg_of_neg_of_pos (by linarith) hpos
    linarith

/-- Over exact arithmetic `findEdge c` is at most `m` exactly when `m` is a positive
integer at which the cubic `m^3 - m^2` has reached `c`. -/
theorem findEdge_le_iff (c : Int) (hc : 1 ≤ c) (m : Int) :
    findEdge c ≤ m ↔ 1 ≤ m ∧ c ≤ m ^ 3 - m ^ 2 := by
  obtain ⟨h1, hroot⟩ := edgeRoot_spec c hc
  rw [findEdge_eq_ceil, Int.ceil_le]
  constructor
  · intro h
    have hm : (1 : ℝ) ≤ m := le_trans h1 h
    have hm' : 1 ≤ m := by exact_mod_cast hm
    refine ⟨hm', ?_⟩
    have := (cubic_le_iff h1 hm).1 h
    rw [hroot] at this
    exact_mod_cast this
  · rintro ⟨hm', hle⟩
    have hm : (1 : ℝ) ≤ m := by exact_mod_cast hm'
    rw [cubic_le_iff h1 hm, hroot]
    exact_mod_cast hle

theorem findEdge_eq_of (c : Int) (hc : 1 ≤ c) (n : Int) (hn : 2 ≤ n)
    (hlo : (n - 1) ^ 3 - (n - 1) ^ 2 < c) (hhi : c ≤ n ^ 3 - n ^ 2) : findEdge c = n := by
  apply le_antisymm
  · exact (findEdge_le_iff c hc n).2 ⟨by omega, hhi⟩
  · by_contra h
    push_neg at h
    have h' : findEdge c ≤ n - 1 := by omega
    have := ((findEdge_le_iff c hc (n - 1)).1 h').2
    omega

theorem findEdge_ge_two (c : Int) (hc : 1 ≤ c) : 2 ≤ findEdge c := by
  by_contra h
  push_neg at h
  have h' : findEdge c ≤ 1 := by omega
  have := ((findEdge_le_iff c hc 1).1 h').2
  norm_num at this
  omega

/-! ## The scan of the permutation -/

theorem scan_cons_accepted (edge threshold nodeSize : Int) (hedge : edge ≠ 0) (k : Nat)
    (v : Int) (rest : List Int) (h : nodeAccepted edge threshold v = true) :
    scan edge threshold nodeSize (k + 1) (v :: rest)
      = (scan edge threshold nodeSize k rest).map
          (fun cs => nodeColor edge nodeSize v :: cs) := by
  unfold nodeAccepted at h
  simp only [scan, if_neg hedge, h, if_true, nodeColor]

theorem scan_cons_rejected (edge threshold nodeSize : Int) (hedge : edge ≠ 0) (k : Nat)
    (v : Int) (rest : List Int) (h : nodeAccepted edge threshold v = false) :
    scan edge threshold nodeSize (k + 1) (v :: rest)
      = scan edge threshold nodeSize (k + 1) rest := by
  unfold nodeAccepted at h
  simp [scan, if_neg hedge, h]

/-- The scan stores the colours of the first `k` accepted entries, in order, and
panics exactly when the slice holds fewer than `k` accepted entries. -/
theorem scan_eq (edge threshold nodeSize : Int) (hedge : edge ≠ 0) (l : List Int) :
    ∀ k : Nat, scan edge threshold nodeSize k l
      = if k ≤ (l.filter (nodeAccepted edge threshold)).length
        then some (((l.filter (nodeAccepted edge threshold)).take k).map
          (nodeColor edge nodeSize))
        else none := by
  induction l with
  | nil =>
    intro k
    cases k with
    | zero => simp [scan]
    | succ k => simp [scan]
  | cons v rest ih =>
    intro k
    cases k with
    | zero => simp [scan]
    | succ k =>
      cases hacc : nodeAccepted edge threshold v with
      | true =>
        rw [scan_cons_accepted edge threshold nodeSize hedge k v rest hacc, ih k,
          List.filter_cons_of_pos hacc]
        by_cases hk : k ≤ (rest.filter (nodeAccepted edge threshold)).length
        · simp [hk]
        · simp [hk]
      | false =>
        rw [scan_cons_rejected edge threshold nodeSize hedge k v rest hacc, ih (k + 1),
          List.filter_cons_of_neg (by simp [hacc])]

theorem generateFrom_eq (edge count : Int) (hedge : 2 ≤ edge) (p : List Int) :
    generateFrom edge count p
      = if count.toNat ≤ (p.filter (nodeAccepted edge (skipThreshold edge))).length
        then Outcome.ok (((p.filter (nodeAccepted edge (skipThreshold edge))).take
          count.toNat).map (nodeColor edge (Int.tdiv 255 (edge - 1))))
        else Outcome.panic := by
  unfold generateFrom
  rw [if_neg (by omega)]
  dsimp only
  rw [scan_eq edge _ _ (by omega)]
  by_cases h : count.toNat ≤ (p.filter (nodeAccepted edge (skipThreshold edge))).length
  · rw [if_pos h, if_pos h]
  · rw [if_neg h, if_neg h]

theorem GeneratePalette_eq (count : Int) (hc : 0 < count) (p : List Int) :
    GeneratePalette count p
      = if count.toNat
            ≤ (p.filter (nodeAccepted (findEdge count) (skipThreshold (findEdge count)))).length
        then Outcome.ok (((p.filter
            (nodeAccepted (findEdge count) (skipThreshold (findEdge count)))).take
              count.toNat).map (nodeColor (findEdge count) (Int.tdiv 255 (findEdge count - 1))))
        else Outcome.panic := by
  unfold GeneratePalette
  rw [if_neg (by omega), generateFrom_eq _ _ (findEdge_ge_two count (by omega))]

/-- Cube 13 (threshold 3): 1980 of the 2197 flat indices pass the filter. -/
theorem accepted_indices_thirteen :
    (indices (13 * 13 * 13)).countP (nodeAccepted 13 (skipThreshold 13)) = 1980 := by
  rw [show skipThreshold 13 = 3 by rw [skipThreshold_eq]; decide]
  decide!

theorem findEdge_1981 : findEdge 1981 = 13 :=
  findEdge_eq_of 1981 (by decide) 13 (by decide) (by decide) (by decide)

theorem findEdge_one : findEdge 1 = 2 :=
  findEdge_eq_of 1 (by decide) 2 (by decide) (by decide) (by decide)

theorem findEdge_two : findEdge 2 = 2 :=
  findEdge_eq_of 2 (by decide) 2 (by decide) (by decide) (by decide)

theorem findEdge_five : findEdge 5 = 3 :=
  findEdge_eq_of 5 (by decide) 3 (by decide) (by decide) (by decide)

/-- A scaled coordinate of a node of the cube is a channel value. -/
theorem scaled_bounds (edge x : Int) (hedge : 2 ≤ edge) (hx0 : 0 ≤ x) (hx1 : x < edge) :
    0 ≤ x * Int.tdiv 255 (edge - 1) ∧ x * Int.tdiv 255 (edge - 1) ≤ 255 := by
  have hpos : 0 < edge - 1 := by omega
  rw [Int.tdiv_eq_ediv (by decide) hpos.le]
  have hn0 : 0 ≤ 255 / (edge - 1) := Int.ediv_nonneg (by decide) hpos.le
  have hmul : 255 / (edge - 1) * (edge - 1) ≤ 255 := Int.ediv_mul_le 255 (ne_of_gt hpos)
  constructor
  · exact mul_nonneg hx0 hn0
  · calc x * (255 / (edge - 1)) ≤ (edge - 1) * (255 / (edge - 1)) :=
          mul_le_mul_of_nonneg_right (by omega) hn0
      _ = 255 / (edge - 1) * (edge - 1) := by ring
      _ ≤ 255 := hmul

theorem half_sum_bounds (a b : Int) (ha0 : 0 ≤ a) (ha1 : a ≤ 255) (hb0 : 0 ≤ b)
    (hb1 : b ≤ 255) : 0 ≤ Int.tdiv (a + b) 2 ∧ Int.tdiv (a + b) 2 ≤ 255 := by
  rw [Int.tdiv_eq_ediv (by omega) (by decide)]
  omega

theorem uint8_of_channel (v : Int) (h0 : 0 ≤ v) (h1 : v ≤ 255) : (uint8 v : Int) = v := by
  unfold uint8
  rw [Int.toNat_of_nonneg (by omega)]
  omega

/-! ## The claims -/

/-- C1 (fails on the code): for `count = 1981` the edge solver returns 13, the cube of
edge 13 holds only 1980 accepted nodes, and on every permutation of the indices
`0 .. 13^3 - 1` the scan of `GeneratePalette` reads past the end of the permutation:
the call panics instead of returning 1981 colours. -/
theorem GeneratePalette_1981_panics (p : List Int) (hp : IsPermOfCube (findEdge 1981) p) :
    GeneratePalette 1981 p = Outcome.panic := by
  rw [GeneratePalette_eq 1981 (by decide) p, findEdge_1981]
  rw [findEdge_1981] at hp
  have hlen : (p.filter (nodeAccepted 13 (skipThreshold 13))).length = 1980 := by
    rw [← List.countP_eq_length_filter, List.Perm.countP_eq _ hp]
    exact accepted_indices_thirteen
  rw [hlen, if_neg (by decide)]

theorem GeneratePalette_1981_panics_witness :
    IsPermOfCube (findEdge 1981) (indices (13 * 13 * 13))
      ∧ GeneratePalette 1981 (indices (13 * 13 * 13)) = Outcome.panic :=
  ⟨by rw [findEdge_1981]; exact List.Perm.refl _,
    GeneratePalette_1981_panics (indices (13 * 13 * 13))
      (by rw [findEdge_1981]; exact List.Perm.refl _)⟩

/-- C2: for every `count ≤ 0`, whatever the permutation, `GeneratePalette count` returns
no palette and the error whose text is "Asked for a non-positive number of colors";
the result is the same for all permutations, so nothing else was computed from them. -/
theorem GeneratePalette_nonpositive (count : Int) (hcount : count ≤ 0) (p : List Int) :
    GeneratePalette count p = Outcome.error "Asked for a non-positive number of colors" := by
  unfold GeneratePalette
  rw [if_pos hcount]
  rfl

theorem GeneratePalette_nonpositive_witness :
    GeneratePalette (-5) [3, 1, 2] = Outcome.error "Asked for a non-positive number of colors" :=
  GeneratePalette_nonpositive (-5) (by decide) [3, 1, 2]

/-- C3 (fails on the code): for `count = 1981` the edge solver returns 13, the threshold
is `ceil(13/6) = 3`, and the cube `[0, 13)^3` has 1980 accepted nodes, fewer than the
1981 requested. -/
theorem acceptedNodes_findEdge_1981 :
    findEdge 1981 = 13 ∧ skipThreshold (findEdge 1981) = 3
      ∧ acceptedNodes (findEdge 1981) = 1980 ∧ ¬ (1981 ≤ acceptedNodes (findEdge 1981)) := by
  have hT : skipThreshold 13 = 3 := by rw [skipThreshold_eq]; decide
  have hN : acceptedNodes 13 = 1980 := by
    unfold acceptedNodes
    rw [hT]
    decide!
  rw [findEdge_1981, hN]
  exact ⟨rfl, hT, rfl, by decide⟩

/-- C4: for every `count ≥ 1` and every accepted node `(x, y, z)` of `[0, edge)^3`, with
`edge = findEdge count` and `nodeSize = 255 / (edge - 1)`, the three integers of
`rotateColorSpace (x*nodeSize) (y*nodeSize) (z*nodeSize)` lie in `[0, 255]`, `uint8`
leaves them unchanged, and every colour of a returned palette has alpha 255. -/
theorem channels_in_range (count : Int) (hcount : 1 ≤ count) (x y z : Int)
    (hx : 0 ≤ x ∧ x < findEdge count) (hy : 0 ≤ y ∧ y < findEdge count)
    (hz : 0 ≤ z ∧ z < findEdge count)
    (hacc : accepted (skipThreshold (findEdge count)) x y z = true) :
    ((0 ≤ (rotateColorSpace (x * Int.tdiv 255 (findEdge count - 1))
          (y * Int.tdiv 255 (findEdge count - 1)) (z * Int.tdiv 255 (findEdge count - 1))).1
        ∧ (rotateColorSpace (x * Int.tdiv 255 (findEdge count - 1))
          (y * Int.tdiv 255 (findEdge count - 1)) (z * Int.tdiv 255 (findEdge count - 1))).1
            ≤ 255)
      ∧ (0 ≤ (rotateColorSpace (x * Int.tdiv 255 (findEdge count - 1))
          (y * Int.tdiv 255 (findEdge count - 1)) (z * Int.tdiv 255 (findEdge count - 1))).2.1
        ∧ (rotateColorSpace (x * Int.tdiv 255 (findEdge count - 1))
          (y * Int.tdiv 255 (findEdge count - 1)) (z * Int.tdiv 255 (findEdge count - 1))).2.1
            ≤ 255)
      ∧ (0 ≤ (rotateColorSpace (x * Int.tdiv 255 (findEdge count - 1))
          (y * Int.tdiv 255 (findEdge count - 1)) (z * Int.tdiv 255 (findEdge count - 1))).2.2
        ∧ (rotateColorSpace (x * Int.tdiv 255 (findEdge count - 1))
          (y * Int.tdiv 255 (findEdge count - 1)) (z * Int.tdiv 255 (findEdge count - 1))).2.2
            ≤ 255))
    ∧ (((colorOf (Int.tdiv 255 (findEdge count - 1)) x y z).R : Int)
          = (rotateColorSpace (x * Int.tdiv 255 (findEdge count - 1))
              (y * Int.tdiv 255 (findEdge count - 1))
              (z * Int.tdiv 255 (findEdge count - 1))).1
      ∧ ((colorOf (Int.tdiv 255 (findEdge count - 1)) x y z).G : Int)
          = (rotateColorSpace (x * Int.tdiv 255 (findEdge count - 1))
              (y * Int.tdiv 255 (findEdge count - 1))
              (z * Int.tdiv 255 (findEdge count - 1))).2.1
      ∧ ((colorOf (Int.tdiv 255 (findEdge count - 1)) x y z).B : Int)
          = (rotateColorSpace (x * Int.tdiv 255 (findEdge count - 1))
              (y * Int.tdiv 255 (findEdge count - 1))
              (z * Int.tdiv 255 (findEdge count - 1))).2.2)
    ∧ (∀ (p : List Int) (colors : List RGBA),
        GeneratePalette count p = Outcome.ok colors → ∀ col ∈ colors, col.A = 255) := by
  have hedge := findEdge_ge_two count hcount
  obtain ⟨a0, a1⟩ := scaled_bounds (findEdge count) x hedge hx.1 hx.2
  obtain ⟨b0, b1⟩ := scaled_bounds (findEdge count) y hedge hy.1 hy.2
  obtain ⟨c0, c1⟩ := scaled_bounds (findEdge count) z hedge hz.1 hz.2
  have hr := half_sum_bounds _ _ a0 a1 c0 c1
  have hg := half_sum_bounds _ _ b0 b1 c0 c1
  have hb := half_sum_bounds _ _ a0 a1 b0 b1
  refine ⟨⟨hr, hg, hb⟩, ⟨?_, ?_, ?_⟩, ?_⟩
  · exact uint8_of_channel _ hr.1 hr.2
  · exact uint8_of_channel _ hg.1 hg.2
  · exact uint8_of_channel _ hb.1 hb.2
  · intro p colors hok col hcol
    rw [GeneratePalette_eq count (by omega) p] at hok
    split at hok
    · injection hok with hok
      rw [← hok, List.mem_map] at hcol
      obtain ⟨v, _, hv⟩ := hcol
      rw [← hv]
      rfl
    · exact absurd hok (by simp)

theorem channels_in_range_witness :
    accepted (skipThreshold (findEdge 1)) 0 0 1 = true
      ∧ 0 ≤ (rotateColorSpace (0 * Int.tdiv 255 (findEdge 1 - 1))
          (0 * Int.tdiv 255 (findEdge 1 - 1)) (1 * Int.tdiv 255 (findEdge 1 - 1))).1
      ∧ (rotateColorSpace (0 * Int.tdiv 255 (findEdge 1 - 1))
          (0 * Int.tdiv 255 (findEdge 1 - 1)) (1 * Int.tdiv 255 (findEdge 1 - 1))).1 ≤ 255 :=
  ⟨by rw [findEdge_one, skipThreshold_eq]; decide,
    (channels_in_range 1 (by decide) 0 0 1
      (by rw [findEdge_one]; decide) (by rw [findEdge_one]; decide)
      (by rw [findEdge_one]; decide)
      (by rw [findEdge_one, skipThreshold_eq]; decide)).1.1⟩

/-- C5: for every `count > 0` and every slice `p` on which `GeneratePalette count`
returns a palette, that palette is, in order, the colours of the first `count` entries
of `p` that pass the diagonal filter (every entry of `p` before the last one used is
examined once, none is skipped), and it has `count` colours. -/
theorem GeneratePalette_discovery_order (count : Int) (hcount : 0 < count) (p : List Int)
    (colors : List RGBA) (hok : GeneratePalette count p = Outcome.ok colors) :
    colors = ((p.filter (nodeAccepted (findEdge count) (skipThreshold (findEdge count)))).take
        count.toNat).map (nodeColor (findEdge count) (Int.tdiv 255 (findEdge count - 1)))
      ∧ (∀ v : Int, nodeColor (findEdge count) (Int.tdiv 255 (findEdge count - 1)) v
          = { R := uint8 (rotateColorSpace
                ((coordinatesFromIndex v (findEdge count)).1 * Int.tdiv 255 (findEdge count - 1))
                ((coordinatesFromIndex v (findEdge count)).2.1
                  * Int.tdiv 255 (findEdge count - 1))
                ((coordinatesFromIndex v (findEdge count)).2.2
                  * Int.tdiv 255 (findEdge count - 1))).1,
              G := uint8 (rotateColorSpace
                ((coordinatesFromIndex v (findEdge count)).1 * Int.tdiv 255 (findEdge count - 1))
                ((coordinatesFromIndex v (findEdge count)).2.1
                  * Int.tdiv 255 (findEdge count - 1))
                ((coordinatesFromIndex v (findEdge count)).2.2
                  * Int.tdiv 255 (findEdge count - 1))).2.1,
              B := uint8 (rotateColorSpace
                ((coordinatesFromIndex v (findEdge count)).1 * Int.tdiv 255 (findEdge count - 1))
                ((coordinatesFromIndex v (findEdge count)).2.1
                  * Int.tdiv 255 (findEdge count - 1))
                ((coordinatesFromIndex v (findEdge count)).2.2
                  * Int.tdiv 255 (findEdge count - 1))).2.2,
              A := 255 })
      ∧ colors.length = count.toNat := by
  rw [GeneratePalette_eq count hcount p] at hok
  split at hok
  · rename_i hlen
    injection hok with hok
    refine ⟨hok.symm, fun v => rfl, ?_⟩
    rw [← hok, List.length_map, List.length_take]
    exact Nat.min_eq_left hlen
  · exact absurd hok (by simp)

theorem GeneratePalette_discovery_order_witness :
    GeneratePalette 2 [0, 1, 2, 3, 4, 5, 6, 7]
        = Outcome.ok [{ R := 127, G := 127, B := 0, A := 255 },
            { R := 0, G := 127, B := 127, A := 255 }]
      ∧ [({ R := 127, G := 127, B := 0, A := 255 } : RGBA),
            { R := 0, G := 127, B := 127, A := 255 }]
          = (([0, 1, 2, 3, 4, 5, 6, 7].filter
              (nodeAccepted (findEdge 2) (skipThreshold (findEdge 2)))).take
                (2 : Int).toNat).map (nodeColor (findEdge 2) (Int.tdiv 255 (findEdge 2 - 1))) := by
  have h : GeneratePalette 2 [0, 1, 2, 3, 4, 5, 6, 7]
      = Outcome.ok [{ R := 127, G := 127, B := 0, A := 255 },
          { R := 0, G := 127, B := 127, A := 255 }] := by
    rw [GeneratePalette_eq 2 (by decide), findEdge_two, skipThreshold_eq]
    decide
  exact ⟨h, (GeneratePalette_discovery_order 2 (by decide) _ _ h).1⟩

/-- C9 (counterexample): `findEdge 5 = 3`, yet the smaller cube of edge 2 already has 6
accepted nodes, so it is not true that no `m` with `1 ≤ m < findEdge 5` has at least 5
accepted nodes. -/
theorem findEdge_not_least_for_filter :
    findEdge 5 = 3 ∧ acceptedNodes 2 = 6
      ∧ ¬ (∀ m : Int, 1 ≤ m → m < findEdge 5 → (acceptedNodes m : Int) < 5) := by
  have hN : acceptedNodes 2 = 6 := by
    unfold acceptedNodes
    rw [skipThreshold_eq]
    decide
  refine ⟨findEdge_five, hN, fun h => ?_⟩
  have := h 2 (by decide) (by rw [findEdge_five]; decide)
  rw [hN] at this
  exact absurd this (by decide)

/-- C9 (amended): for every `count ≥ 1`, `n = findEdge count` is at least 2, is large
enough for the cubic the code solves, `n^3 - n^2 ≥ count`, and is the smallest such
integer or one more: every integer `m` with `1 ≤ m` and `m + 1 < n` has
`m^3 - m^2 < count`. -/
theorem findEdge_brackets_cubic (count : Int) (hcount : 1 ≤ count) :
    2 ≤ findEdge count ∧ count ≤ findEdge count ^ 3 - findEdge count ^ 2
      ∧ ∀ m : Int, 1 ≤ m → m + 1 < findEdge count → m ^ 3 - m ^ 2 < count := by
  have h := (findEdge_le_iff count hcount (findEdge count)).1 le_rfl
  refine ⟨findEdge_ge_two count hcount, h.2, fun m hm hlt => ?_⟩
  by_contra hge
  push_neg at hge
  have := (findEdge_le_iff count hcount m).2 ⟨hm, hge⟩
  omega

theorem findEdge_brackets_cubic_witness :
    2 ≤ findEdge 180 ∧ 180 ≤ findEdge 180 ^ 3 - findEdge 180 ^ 2
      ∧ ∀ m : Int, 1 ≤ m → m + 1 < findEdge 180 → m ^ 3 - m ^ 2 < 180 :=
  findEdge_brackets_cubic 180 (by decide)

/-- C10: over exact arithmetic the edge solver is monotone: `1 ≤ c1 < c2` implies
`findEdge c1 ≤ findEdge c2`. -/
theorem findEdge_monotone (c1 c2 : Int) (h1 : 1 ≤ c1) (hlt : c1 < c2) :
    findEdge c1 ≤ findEdge c2 := by
  have h := (findEdge_le_iff c2 (by omega) (findEdge c2)).1 le_rfl
  exact (findEdge_le_iff c1 h1 (findEdge c2)).2 ⟨h.1, by omega⟩

theorem findEdge_monotone_witness : findEdge 4 ≤ findEdge 5 :=
  findEdge_monotone 4 5 (by decide) (by decide)

/-! ## Further lemmas on the edge solver, the filter and the rotation -/

theorem edgeRoot_gt_one (c : Int) (hc : 1 ≤ c) : 1 < edgeRoot c := by
  obtain ⟨h1, hroot⟩ := edgeRoot_spec c hc
  rcases lt_or_eq_of_le h1 with h | h
  · exact h
  · exfalso
    rw [← h] at hroot
    have hcR : (1 : ℝ) ≤ c := by exact_mod_cast hc
    norm_num at hroot
    linarith

theorem edgeRoot_unique (c : Int) (hc : 1 ≤ c) (r : ℝ) (hr : r ^ 3 - r ^ 2 = c) :
    r = edgeRoot c := by
  obtain ⟨h1, hroot⟩ := edgeRoot_spec c hc
  have hcR : (1 : ℝ) ≤ c := by exact_mod_cast hc
  have hr1 : 1 ≤ r := by
    by_contra hlt
    push_neg at hlt
    have : r ^ 3 - r ^ 2 ≤ 0 := by
      have : r ^ 3 - r ^ 2 = r ^ 2 * (r - 1) := by ring
      rw [this]
      exact mul_nonpos_of_nonneg_of_nonpos (sq_nonneg r) (by linarith)
    linarith
  apply le_antisymm
  · rw [cubic_le_iff hr1 h1, hr, hroot]
  · rw [cubic_le_iff h1 hr1, hr, hroot]

theorem edgeRoot_formula (c : Int) :
    edgeRoot c
      = (Cbrt ((Real.sqrt (729 * (c : ℝ) ^ 2 + 108 * (c : ℝ)) + (27 * (c : ℝ) + 2)) / 2)
          + 1 / Cbrt ((Real.sqrt (729 * (c : ℝ) ^ 2 + 108 * (c : ℝ)) + (27 * (c : ℝ) + 2)) / 2)
          + 1) / 3 := by
  have h1 : (((27 * 27 * c * c + 27 * 4 * c : Int) : ℝ)) = 729 * (c : ℝ) ^ 2 + 108 * (c : ℝ) := by
    push_cast; ring
  have h2 : (((27 * c + 2 : Int) : ℝ)) = 27 * (c : ℝ) + 2 := by push_cast; ring
  unfold edgeRoot
  simp only [h1, h2]

theorem findEdge_six : findEdge 6 = 3 :=
  findEdge_eq_of 6 (by decide) 3 (by decide) (by decide) (by decide)

theorem accepted_iff (threshold x y z : Int) :
    accepted threshold x y z = true
      ↔ threshold ≤ |x - y| ∨ threshold ≤ |y - z| ∨ threshold ≤ |x - z| := by
  simp [accepted, or_assoc]

theorem accepted_swap12 (threshold x y z : Int) :
    accepted threshold y x z = accepted threshold x y z := by
  rw [Bool.eq_iff_iff, accepted_iff, accepted_iff, abs_sub_comm y x]
  tauto

theorem accepted_swap23 (threshold x y z : Int) :
    accepted threshold x z y = accepted threshold x y z := by
  rw [Bool.eq_iff_iff, accepted_iff, accepted_iff, abs_sub_comm z y]
  tauto

/-- C11: for every `count ≥ 1` (1 included) `findEdge count ≥ 1`, `findEdge count` is
not 1, and the divisor `findEdge count - 1` of `255 / (nodesPerSide - 1)` is not zero. -/
theorem findEdge_divisor_nonzero (count : Int) (hcount : 1 ≤ count) :
    1 ≤ findEdge count ∧ findEdge count ≠ 1 ∧ findEdge count - 1 ≠ 0 := by
  have h := findEdge_ge_two count hcount
  omega

theorem findEdge_divisor_nonzero_witness :
    1 ≤ findEdge 1 ∧ findEdge 1 ≠ 1 ∧ findEdge 1 - 1 ≠ 0 :=
  findEdge_divisor_nonzero 1 (by decide)

/-- C12: the decision of the diagonal filter is the same on each of the six
rearrangements of `(x, y, z)`, for every threshold. -/
theorem accepted_symmetric (threshold x y z : Int) :
    accepted threshold x z y = accepted threshold x y z
      ∧ accepted threshold y x z = accepted threshold x y z
      ∧ accepted threshold y z x = accepted threshold x y z
      ∧ accepted threshold z x y = accepted threshold x y z
      ∧ accepted threshold z y x = accepted threshold x y z := by
  refine ⟨accepted_swap23 _ _ _ _, accepted_swap12 _ _ _ _, ?_, ?_, ?_⟩
  · rw [accepted_swap23 threshold y x z, accepted_swap12]
  · rw [accepted_swap12 threshold x z y, accepted_swap23]
  · rw [accepted_swap12 threshold y z x, accepted_swap23 threshold y x z, accepted_swap12]

/-- The exact reading of lines 44-45: for every `count ≥ 1` the real number
`(delta + 1/delta + 1)/3`, with
`delta = cbrt((sqrt(729 count^2 + 108 count) + 27 count + 2)/2)`, is greater than one
and is the only real root of `n^3 - n^2 = count`; `findEdge count` is its ceiling, that
is the smallest positive integer `n` with `n^3 - n^2 ≥ count`. -/
theorem findEdge_exact_ceil_of_cubic_root (count : Int) (hcount : 1 ≤ count) :
    edgeRoot count
        = (Cbrt ((Real.sqrt (729 * (count : ℝ) ^ 2 + 108 * (count : ℝ))
              + (27 * (count : ℝ) + 2)) / 2)
            + 1 / Cbrt ((Real.sqrt (729 * (count : ℝ) ^ 2 + 108 * (count : ℝ))
              + (27 * (count : ℝ) + 2)) / 2)
            + 1) / 3
      ∧ findEdge count = ⌈edgeRoot count⌉
      ∧ 1 < edgeRoot count
      ∧ edgeRoot count ^ 3 - edgeRoot count ^ 2 = count
      ∧ (∀ r : ℝ, r ^ 3 - r ^ 2 = count → r = edgeRoot count)
      ∧ 1 ≤ findEdge count
      ∧ count ≤ findEdge count ^ 3 - findEdge count ^ 2
      ∧ (∀ m : Int, 1 ≤ m → count ≤ m ^ 3 - m ^ 2 → findEdge count ≤ m) := by
  have h := (findEdge_le_iff count hcount (findEdge count)).1 le_rfl
  exact ⟨edgeRoot_formula count, rfl, edgeRoot_gt_one count hcount,
    (edgeRoot_spec count hcount).2, edgeRoot_unique count hcount, h.1, h.2,
    fun m hm hle => (findEdge_le_iff count hcount m).2 ⟨hm, hle⟩⟩

theorem findEdge_180 : findEdge 180 = 6 :=
  findEdge_eq_of 180 (by decide) 6 (by decide) (by decide) (by decide)

theorem findEdge_23548 : findEdge 23548 = 29 :=
  findEdge_eq_of 23548 (by decide) 29 (by decide) (by decide) (by decide)

/-- C13 (fails on the code): at `count = 180` the real root of `n^3 - n^2 = 180` is
exactly 6 (`6^3 - 6^2 = 180`), so the ceiling of the root, the smallest positive `n` with
`n^3 - n^2 ≥ 180` and the exact reading of lines 44-45 are all 6, but lines 44-45
evaluated in `float64` return 7; likewise 30 instead of 29 at `count = 23548`. -/
theorem findEdgeFloat64_misses_ceil_of_root :
    findEdgeFloat64 180 = some 7 ∧ findEdge 180 = 6 ∧ (6 : ℝ) ^ 3 - 6 ^ 2 = ((180 : Int) : ℝ)
      ∧ edgeRoot 180 = 6
      ∧ findEdgeFloat64 23548 = some 30 ∧ findEdge 23548 = 29
      ∧ (29 : ℝ) ^ 3 - 29 ^ 2 = ((23548 : Int) : ℝ) ∧ edgeRoot 23548 = 29 := by
  refine ⟨by decide!, findEdge_180, by norm_num, ?_, by decide!, findEdge_23548,
    by norm_num, ?_⟩
  · exact (edgeRoot_unique 180 (by decide) 6 (by norm_num)).symm
  · exact (edgeRoot_unique 23548 (by decide) 29 (by norm_num)).symm

/-- C14 (counterexample): at `count = 6` the only real root of `n^3 - n = 6` is 2, so
the smallest integer not below it is 2, but `findEdge 6 = 3`; and the value under the
ceiling does not solve `n^3 - n = 6`. -/
theorem findEdge_six_not_root_of_cube_minus_linear :
    (∀ r : ℝ, r ^ 3 - r = 6 ↔ r = 2) ∧ findEdge 6 = 3 ∧ findEdge 6 ≠ ⌈(2 : ℝ)⌉
      ∧ edgeRoot 6 ^ 3 - edgeRoot 6 ≠ ((6 : Int) : ℝ) := by
  refine ⟨fun r => ⟨fun h => ?_, fun h => by rw [h]; norm_num⟩, findEdge_six, ?_, ?_⟩
  · have h0 : (r - 2) * (r ^ 2 + 2 * r + 3) = 0 := by ring_nf; ring_nf at h; linarith
    rcases mul_eq_zero.1 h0 with h1 | h1
    · linarith
    · nlinarith [sq_nonneg (r + 1)]
  · rw [findEdge_six]
    have : ⌈(2 : ℝ)⌉ = 2 := by exact_mod_cast Int.ceil_intCast (2 : Int)
    rw [this]
    decide
  · have h1 := edgeRoot_gt_one 6 (by decide)
    have h2 := (edgeRoot_spec 6 (by decide)).2
    intro h3
    nlinarith

/-- C14 (amended): for every `count ≥ 1` the closed form `(delta + 1/delta + 1)/3` that
`findEdge` rounds up is, as a real number, the solution `n` of `n^3 - n^2 = count`, not
of `n^3 - n = count` (there `n^3 - n` exceeds `count`); `findEdge count` is an integer
not below that root and less than 2 above it. -/
theorem findEdge_above_root_of_cube_minus_square (count : Int) (hcount : 1 ≤ count) :
    edgeRoot count
        = (Cbrt ((Real.sqrt (729 * (count : ℝ) ^ 2 + 108 * (count : ℝ))
              + (27 * (count : ℝ) + 2)) / 2)
            + 1 / Cbrt ((Real.sqrt (729 * (count : ℝ) ^ 2 + 108 * (count : ℝ))
              + (27 * (count : ℝ) + 2)) / 2)
            + 1) / 3
      ∧ edgeRoot count ^ 3 - edgeRoot count ^ 2 = count
      ∧ (count : ℝ) < edgeRoot count ^ 3 - edgeRoot count
      ∧ edgeRoot count ≤ findEdge count
      ∧ (findEdge count : ℝ) < edgeRoot count + 2 := by
  have h1 := edgeRoot_gt_one count hcount
  have h2 := (edgeRoot_spec count hcount).2
  refine ⟨edgeRoot_formula count, h2, by nlinarith, ?_, ?_⟩
  · rw [findEdge_eq_ceil]; exact Int.le_ceil _
  · rw [findEdge_eq_ceil]
    have := Int.ceil_lt_add_one (edgeRoot count)
    linarith

theorem findEdge_above_root_of_cube_minus_square_witness :
    edgeRoot 6 ^ 3 - edgeRoot 6 ^ 2 = ((6 : Int) : ℝ) ∧ edgeRoot 6 ≤ findEdge 6
      ∧ (findEdge 6 : ℝ) < edgeRoot 6 + 2 :=
  ⟨(findEdge_above_root_of_cube_minus_square 6 (by decide)).2.1,
    (findEdge_above_root_of_cube_minus_square 6 (by decide)).2.2.2.1,
    (findEdge_above_root_of_cube_minus_square 6 (by decide)).2.2.2.2⟩

/-- C16: `rotateColorSpace` computes `red = (gm + by)/2`, `green = (rc + by)/2`,
`blue = (gm + rc)/2` with truncating division, and it is not injective on `[0, 255]^3`:
the different triples `(0, 0, 0)` and `(1, 0, 0)` have the same image. -/
theorem rotateColorSpace_not_injective :
    (∀ gm rc b : Int, rotateColorSpace gm rc b
        = (Int.tdiv (gm + b) 2, Int.tdiv (rc + b) 2, Int.tdiv (gm + rc) 2))
      ∧ ∃ gm rc b gm2 rc2 b2 : Int,
          (0 ≤ gm ∧ gm ≤ 255) ∧ (0 ≤ rc ∧ rc ≤ 255) ∧ (0 ≤ b ∧ b ≤ 255)
          ∧ (0 ≤ gm2 ∧ gm2 ≤ 255) ∧ (0 ≤ rc2 ∧ rc2 ≤ 255) ∧ (0 ≤ b2 ∧ b2 ≤ 255)
          ∧ (gm, rc, b) ≠ (gm2, rc2, b2)
          ∧ rotateColorSpace gm rc b = rotateColorSpace gm2 rc2 b2 :=
  ⟨fun _ _ _ => rfl, 0, 0, 0, 1, 0, 0, by decide⟩

theorem skipThreshold_pos (edge : Int) (hedge : 1 ≤ edge) : 1 ≤ skipThreshold edge := by
  rw [skipThreshold_eq]
  omega

theorem accepted_false_iff (threshold x y z : Int) :
    accepted threshold x y z = false
      ↔ max x (max y z) - min x (min y z) < threshold := by
  rw [← Bool.not_eq_true, accepted_iff]
  rcases abs_cases (x - y) with ⟨h1, _⟩ | ⟨h1, _⟩ <;>
  rcases abs_cases (y - z) with ⟨h2, _⟩ | ⟨h2, _⟩ <;>
  rcases abs_cases (x - z) with ⟨h3, _⟩ | ⟨h3, _⟩ <;>
  rw [h1, h2, h3] <;> omega

/-- The entries of the slice whose colours a successful call returns. -/
theorem GeneratePalette_sources (count : Int) (hcount : 0 < count) (p : List Int)
    (colors : List RGBA) (hok : GeneratePalette count p = Outcome.ok colors) :
    ∃ vs : List Int, List.Sublist vs p
      ∧ colors = vs.map (nodeColor (findEdge count) (Int.tdiv 255 (findEdge count - 1)))
      ∧ vs.length = count.toNat
      ∧ ∀ v ∈ vs, nodeAccepted (findEdge count) (skipThreshold (findEdge count)) v = true := by
  rw [GeneratePalette_eq count hcount p] at hok
  split at hok
  · rename_i hlen
    injection hok with hok
    refine ⟨(p.filter (nodeAccepted (findEdge count) (skipThreshold (findEdge count)))).take
      count.toNat, ?_, hok.symm, ?_, ?_⟩
    · exact (List.take_sublist _ _).trans (List.filter_sublist _)
    · rw [List.length_take]; exact Nat.min_eq_left hlen
    · intro v hv
      exact (List.mem_filter.1 (List.mem_of_mem_take hv)).2
  · exact absurd hok (by simp)

/-- C15: for every `edge ≥ 1` the filter with threshold `ceil(edge/6)` rejects every
node with `x = y = z`, and rejects a node exactly when
`max(x,y,z) - min(x,y,z) < ceil(edge/6)`; every colour of a palette returned by
`GeneratePalette` is the colour of an entry of the slice whose coordinates are not all
equal. -/
theorem diagonal_rejected (edge : Int) (hedge : 1 ≤ edge) :
    (∀ x : Int, accepted (skipThreshold edge) x x x = false)
      ∧ (∀ x y z : Int, accepted (skipThreshold edge) x y z = false
          ↔ max x (max y z) - min x (min y z) < skipThreshold edge)
      ∧ (∀ (count : Int) (p : List Int) (colors : List RGBA), 0 < count →
          GeneratePalette count p = Outcome.ok colors →
          ∃ vs : List Int, List.Sublist vs p
            ∧ colors = vs.map (nodeColor (findEdge count) (Int.tdiv 255 (findEdge count - 1)))
            ∧ ∀ v ∈ vs, ¬ ((coordinatesFromIndex v (findEdge count)).1
                  = (coordinatesFromIndex v (findEdge count)).2.1
                ∧ (coordinatesFromIndex v (findEdge count)).2.1
                  = (coordinatesFromIndex v (findEdge count)).2.2)) := by
  have hT := skipThreshold_pos edge hedge
  refine ⟨fun x => ?_, fun x y z => accepted_false_iff _ x y z, ?_⟩
  · rw [accepted_false_iff]
    simp only [max_self, min_self, sub_self]
    omega
  · intro count p colors hcount hok
    obtain ⟨vs, hsub, hcol, _, hacc⟩ := GeneratePalette_sources count hcount p colors hok
    refine ⟨vs, hsub, hcol, fun v hv hdiag => ?_⟩
    have h := hacc v hv
    have hT2 := skipThreshold_pos (findEdge count)
      (by have := findEdge_ge_two count (by omega); omega)
    unfold nodeAccepted at h
    rw [hdiag.1, hdiag.2] at h
    have hf : accepted (skipThreshold (findEdge count))
        (coordinatesFromIndex v (findEdge count)).2.2
        (coordinatesFromIndex v (findEdge count)).2.2
        (coordinatesFromIndex v (findEdge count)).2.2 = false := by
      rw [accepted_false_iff]
      simp only [max_self, min_self, sub_self]
      omega
    rw [hf] at h
    exact absurd h (by decide)

theorem diagonal_rejected_witness :
    accepted (skipThreshold 13) 4 4 4 = false
      ∧ (accepted (skipThreshold 13) 0 1 2 = false
          ↔ max (0 : Int) (max 1 2) - min (0 : Int) (min 1 2) < skipThreshold 13) :=
  ⟨(diagonal_rejected 13 (by decide)).1 4, (diagonal_rejected 13 (by decide)).2.1 0 1 2⟩

/-! ## Distinct colours -/

theorem nodeSize_ge_two (edge : Int) (h2 : 2 ≤ edge) (h128 : edge ≤ 128) :
    2 ≤ Int.tdiv 255 (edge - 1) := by
  rw [Int.tdiv_eq_ediv (by decide) (by omega)]
  exact (Int.le_ediv_iff_mul_le (by omega)).2 (by omega)

/-- Halving after scaling by a step of at least two keeps different sums apart. -/
theorem half_scaled_injective (nodeSize s t : Int) (hns : 2 ≤ nodeSize) (hs : 0 ≤ s)
    (ht : 0 ≤ t) (h : Int.tdiv (s * nodeSize) 2 = Int.tdiv (t * nodeSize) 2) : s = t := by
  have hs2 : 0 ≤ s * nodeSize := mul_nonneg hs (by omega)
  have ht2 : 0 ≤ t * nodeSize := mul_nonneg ht (by omega)
  rw [Int.tdiv_eq_ediv hs2 (by decide), Int.tdiv_eq_ediv ht2 (by decide)] at h
  rcases lt_trichotomy s t with hlt | heq | hgt
  · exfalso
    have : s * nodeSize + nodeSize ≤ t * nodeSize := by nlinarith
    omega
  · exact heq
  · exfalso
    have : t * nodeSize + nodeSize ≤ s * nodeSize := by nlinarith
    omega

theorem rotate_scaled_injective (nodeSize x y z x2 y2 z2 : Int) (hns : 2 ≤ nodeSize)
    (hx : 0 ≤ x) (hy : 0 ≤ y) (hz : 0 ≤ z) (hx2 : 0 ≤ x2) (hy2 : 0 ≤ y2) (hz2 : 0 ≤ z2)
    (h : rotateColorSpace (x * nodeSize) (y * nodeSize) (z * nodeSize)
      = rotateColorSpace (x2 * nodeSize) (y2 * nodeSize) (z2 * nodeSize)) :
    x = x2 ∧ y = y2 ∧ z = z2 := by
  simp only [rotateColorSpace, Prod.mk.injEq, ← add_mul] at h
  obtain ⟨hr, hg, hb⟩ := h
  have h1 := half_scaled_injective nodeSize _ _ hns (by omega) (by omega) hr
  have h2 := half_scaled_injective nodeSize _ _ hns (by omega) (by omega) hg
  have h3 := half_scaled_injective nodeSize _ _ hns (by omega) (by omega) hb
  omega

theorem mem_indices (n v : Int) : v ∈ indices n ↔ 0 ≤ v ∧ v < n := by
  unfold indices
  rw [List.mem_map]
  constructor
  · rintro ⟨k, hk, rfl⟩
    rw [List.mem_range] at hk
    constructor
    · exact Int.ofNat_nonneg k
    · have : (k : Int) < (n.toNat : Int) := by exact_mod_cast hk
      have h2 : ((n.toNat : Nat) : Int) = max n 0 := Int.toNat_eq_max n
      have h3 : (0 : Int) ≤ k := Int.ofNat_nonneg k
      show (k : Int) < n
      omega
  · rintro ⟨h0, hlt⟩
    refine ⟨v.toNat, ?_, ?_⟩
    · rw [List.mem_range]
      omega
    · exact Int.toNat_of_nonneg h0

theorem indices_nodup (n : Int) : (indices n).Nodup := by
  unfold indices
  exact List.Nodup.map (fun a b h => Int.ofNat.inj h) (List.nodup_range _)

/-- Within the cube, different flat indices get different colours when the step is at
least two. -/
theorem nodeColor_injective (edge : Int) (h2 : 2 ≤ edge) (h128 : edge ≤ 128) (v w : Int)
    (hv : 0 ≤ v ∧ v < edge * edge * edge) (hw : 0 ≤ w ∧ w < edge * edge * edge)
    (h : nodeColor edge (Int.tdiv 255 (edge - 1)) v
      = nodeColor edge (Int.tdiv 255 (edge - 1)) w) : v = w := by
  have hns := nodeSize_ge_two edge h2 h128
  obtain ⟨⟨vx0, vx1⟩, ⟨vy0, vy1⟩, ⟨vz0, vz1⟩⟩ :=
    coordinatesFromIndex_bounds v edge (by omega) hv.1 hv.2
  obtain ⟨⟨wx0, wx1⟩, ⟨wy0, wy1⟩, ⟨wz0, wz1⟩⟩ :=
    coordinatesFromIndex_bounds w edge (by omega) hw.1 hw.2
  obtain ⟨a0, a1⟩ := scaled_bounds edge _ h2 vx0 vx1
  obtain ⟨b0, b1⟩ := scaled_bounds edge _ h2 vy0 vy1
  obtain ⟨c0, c1⟩ := scaled_bounds edge _ h2 vz0 vz1
  obtain ⟨d0, d1⟩ := scaled_bounds edge _ h2 wx0 wx1
  obtain ⟨e0, e1⟩ := scaled_bounds edge _ h2 wy0 wy1
  obtain ⟨f0, f1⟩ := scaled_bounds edge _ h2 wz0 wz1
  have vr := half_sum_bounds _ _ a0 a1 c0 c1
  have vg := half_sum_bounds _ _ b0 b1 c0 c1
  have vb := half_sum_bounds _ _ a0 a1 b0 b1
  have wr := half_sum_bounds _ _ d0 d1 f0 f1
  have wg := half_sum_bounds _ _ e0 e1 f0 f1
  have wb := half_sum_bounds _ _ d0 d1 e0 e1
  simp only [nodeColor, colorOf, RGBA.mk.injEq, and_true] at h
  obtain ⟨hR, hG, hB⟩ := h
  have hrot : rotateColorSpace ((coordinatesFromIndex v edge).1 * Int.tdiv 255 (edge - 1))
        ((coordinatesFromIndex v edge).2.1 * Int.tdiv 255 (edge - 1))
        ((coordinatesFromIndex v edge).2.2 * Int.tdiv 255 (edge - 1))
      = rotateColorSpace ((coordinatesFromIndex w edge).1 * Int.tdiv 255 (edge - 1))
        ((coordinatesFromIndex w edge).2.1 * Int.tdiv 255 (edge - 1))
        ((coordinatesFromIndex w edge).2.2 * Int.tdiv 255 (edge - 1)) := by
    refine Prod.ext ?_ (Prod.ext ?_ ?_)
    · have e1 := uint8_of_channel _ vr.1 vr.2
      have e2 := uint8_of_channel _ wr.1 wr.2
      have : ((uint8 (rotateColorSpace
          ((coordinatesFromIndex v edge).1 * Int.tdiv 255 (edge - 1))
          ((coordinatesFromIndex v edge).2.1 * Int.tdiv 255 (edge - 1))
          ((coordinatesFromIndex v edge).2.2 * Int.tdiv 255 (edge - 1))).1 : Nat) : Int)
          = (uint8 (rotateColorSpace
          ((coordinatesFromIndex w edge).1 * Int.tdiv 255 (edge - 1))
          ((coordinatesFromIndex w edge).2.1 * Int.tdiv 255 (edge - 1))
          ((coordinatesFromIndex w edge).2.2 * Int.tdiv 255 (edge - 1))).1 : Nat) := by
        rw [hR]
      exact e1.symm.trans (this.trans e2)
    · have e1 := uint8_of_channel _ vg.1 vg.2
      have e2 := uint8_of_channel _ wg.1 wg.2
      have : ((uint8 (rotateColorSpace
          ((coordinatesFromIndex v edge).1 * Int.tdiv 255 (edge - 1))
          ((coordinatesFromIndex v edge).2.1 * Int.tdiv 255 (edge - 1))
          ((coordinatesFromIndex v edge).2.2 * Int.tdiv 255 (edge - 1))).2.1 : Nat) : Int)
          = (uint8 (rotateColorSpace
          ((coordinatesFromIndex w edge).1 * Int.tdiv 255 (edge - 1))
          ((coordinatesFromIndex w edge).2.1 * Int.tdiv 255 (edge - 1))
          ((coordinatesFromIndex w edge).2.2 * Int.tdiv 255 (edge - 1))).2.1 : Nat) := by
        rw [hG]
      exact e1.symm.trans (this.trans e2)
    · have e1 := uint8_of_channel _ vb.1 vb.2
      have e2 := uint8_of_channel _ wb.1 wb.2
      have : ((uint8 (rotateColorSpace
          ((coordinatesFromIndex v edge).1 * Int.tdiv 255 (edge - 1))
          ((coordinatesFromIndex v edge).2.1 * Int.tdiv 255 (edge - 1))
          ((coordinatesFromIndex v edge).2.2 * Int.tdiv 255 (edge - 1))).2.2 : Nat) : Int)
          = (uint8 (rotateColorSpace
          ((coordinatesFromIndex w edge).1 * Int.tdiv 255 (edge - 1))
          ((coordinatesFromIndex w edge).2.1 * Int.tdiv 255 (edge - 1))
          ((coordinatesFromIndex w edge).2.2 * Int.tdiv 255 (edge - 1))).2.2 : Nat) := by
        rw [hB]
      exact e1.symm.trans (this.trans e2)
  obtain ⟨ex, ey, ez⟩ := rotate_scaled_injective _ _ _ _ _ _ _ hns vx0 vy0 vz0 wx0 wy0 wz0 hrot
  have hv2 : (coordinatesFromIndex v edge).1 * edge * edge
      + (coordinatesFromIndex v edge).2.1 * edge + (coordinatesFromIndex v edge).2.2 = v := by
    simp only [coordinatesFromIndex]; ring
  have hw2 : (coordinatesFromIndex w edge).1 * edge * edge
      + (coordinatesFromIndex w edge).2.1 * edge + (coordinatesFromIndex w edge).2.2 = w := by
    simp only [coordinatesFromIndex]; ring
  rw [← hv2, ← hw2, ex, ey, ez]

theorem findEdge_le_thirteen (count : Int) (h1 : 1 ≤ count) (h2 : count ≤ 1980) :
    findEdge count ≤ 13 :=
  (findEdge_le_iff count h1 13).2 ⟨by decide, by omega⟩

/-- Cubes of edge 2 to 13: the flat indices that pass the filter are at least as many as
the largest count of `1 .. 1980` that the cubic `n^3 - n^2` admits. -/
theorem accepted_indices_enough (n : Int) (h2 : 2 ≤ n) (h13 : n ≤ 13) :
    (min (n * n * n - n * n) 1980).toNat
      ≤ (indices (n * n * n)).countP (nodeAccepted n (skipThreshold n)) := by
  interval_cases n <;> rw [skipThreshold_eq] <;> decide!

theorem acceptedNodes_enough (n : Int) (h2 : 2 ≤ n) (h13 : n ≤ 13) :
    (min (n * n * n - n * n) 1980).toNat ≤ acceptedNodes n := by
  unfold acceptedNodes
  interval_cases n <;> rw [skipThreshold_eq] <;> decide!

/-- C17: for `2 ≤ edge ≤ 128` the step `255 / (edge - 1)` is at least two and the map
from the nodes of `[0, edge)^3` to `rotateColorSpace (x*nodeSize) (y*nodeSize)
(z*nodeSize)` is injective; hence when `findEdge count = edge` and `GeneratePalette`
succeeds on a permutation of the `edge^3` indices, the returned colours are pairwise
distinct. -/
theorem colours_distinct (edge : Int) (h2 : 2 ≤ edge) (h128 : edge ≤ 128) :
    2 ≤ Int.tdiv 255 (edge - 1)
      ∧ (∀ x y z x2 y2 z2 : Int, (0 ≤ x ∧ x < edge) → (0 ≤ y ∧ y < edge) →
          (0 ≤ z ∧ z < edge) → (0 ≤ x2 ∧ x2 < edge) → (0 ≤ y2 ∧ y2 < edge) →
          (0 ≤ z2 ∧ z2 < edge) →
          rotateColorSpace (x * Int.tdiv 255 (edge - 1)) (y * Int.tdiv 255 (edge - 1))
              (z * Int.tdiv 255 (edge - 1))
            = rotateColorSpace (x2 * Int.tdiv 255 (edge - 1)) (y2 * Int.tdiv 255 (edge - 1))
              (z2 * Int.tdiv 255 (edge - 1)) →
          x = x2 ∧ y = y2 ∧ z = z2)
      ∧ (∀ (count : Int) (p : List Int) (colors : List RGBA), 1 ≤ count →
          findEdge count = edge → IsPermOfCube edge p →
          GeneratePalette count p = Outcome.ok colors → colors.Nodup) := by
  have hns := nodeSize_ge_two edge h2 h128
  refine ⟨hns, ?_, ?_⟩
  · intro x y z x2 y2 z2 hx hy hz hx2 hy2 hz2 h
    exact rotate_scaled_injective _ _ _ _ _ _ _ hns hx.1 hy.1 hz.1 hx2.1 hy2.1 hz2.1 h
  · intro count p colors hcount hedge hp hok
    obtain ⟨vs, hsub, hcol, _, _⟩ := GeneratePalette_sources count (by omega) p colors hok
    rw [hedge] at hcol
    have hpn : p.Nodup := (List.Perm.nodup_iff hp).2 (indices_nodup _)
    have hmem : ∀ v ∈ vs, 0 ≤ v ∧ v < edge * edge * edge := fun v hv =>
      (mem_indices _ v).1 ((List.Perm.mem_iff hp).1 (hsub.subset hv))
    rw [hcol]
    exact List.Nodup.map_on
      (fun v hv w hw h => nodeColor_injective edge h2 h128 v w (hmem v hv) (hmem w hw) h)
      (hpn.sublist hsub)

theorem colours_distinct_witness :
    GeneratePalette 2 [0, 1, 2, 3, 4, 5, 6, 7]
        = Outcome.ok [RGBA.mk 127 127 0 255, RGBA.mk 0 127 127 255]
      ∧ [RGBA.mk 127 127 0 255, RGBA.mk 0 127 127 255].Nodup := by
  have h : GeneratePalette 2 [0, 1, 2, 3, 4, 5, 6, 7]
      = Outcome.ok [RGBA.mk 127 127 0 255, RGBA.mk 0 127 127 255] := by
    rw [GeneratePalette_eq 2 (by decide), findEdge_two, skipThreshold_eq]
    decide
  exact ⟨h, (colours_distinct 2 (by decide) (by decide)).2.2 2 _ _ (by decide) findEdge_two
    (List.Perm.refl _) h⟩

/-- C18: for `1 ≤ count ≤ 1980` the edge `findEdge count` lies between 2 and 13, its cube
has at least `count` accepted nodes, and on every permutation of the indices
`0 .. findEdge(count)^3 - 1` the scan finds `count` accepted entries inside the
permutation: `GeneratePalette` returns `count` colours and does not panic. -/
theorem GeneratePalette_succeeds_upto_1980 (count : Int) (h1 : 1 ≤ count)
    (h1980 : count ≤ 1980) (p : List Int) (hp : IsPermOfCube (findEdge count) p) :
    (2 ≤ findEdge count ∧ findEdge count ≤ 13)
      ∧ count.toNat ≤ acceptedNodes (findEdge count)
      ∧ count.toNat
          ≤ (p.filter (nodeAccepted (findEdge count) (skipThreshold (findEdge count)))).length
      ∧ ∃ colors : List RGBA,
          GeneratePalette count p = Outcome.ok colors ∧ colors.length = count.toNat := by
  have hlo := findEdge_ge_two count h1
  have hhi := findEdge_le_thirteen count h1 h1980
  have hcub := ((findEdge_le_iff count h1 (findEdge count)).1 le_rfl).2
  have hmin : count.toNat
      ≤ (min (findEdge count * findEdge count * findEdge count
          - findEdge count * findEdge count) 1980).toNat := by
    have : count ≤ min (findEdge count * findEdge count * findEdge count
        - findEdge count * findEdge count) 1980 := by
      refine le_min ?_ h1980
      calc count ≤ findEdge count ^ 3 - findEdge count ^ 2 := hcub
        _ = _ := by ring
    omega
  have hlen : count.toNat
      ≤ (p.filter (nodeAccepted (findEdge count) (skipThreshold (findEdge count)))).length := by
    rw [← List.countP_eq_length_filter, List.Perm.countP_eq _ hp]
    exact le_trans hmin (accepted_indices_enough _ hlo hhi)
  refine ⟨⟨hlo, hhi⟩, le_trans hmin (acceptedNodes_enough _ hlo hhi), hlen, ?_⟩
  rw [GeneratePalette_eq count (by omega) p, if_pos hlen]
  refine ⟨_, rfl, ?_⟩
  rw [List.length_map, List.length_take]
  exact Nat.min_eq_left hlen

theorem GeneratePalette_succeeds_upto_1980_witness :
    IsPermOfCube (findEdge 2) [7, 6, 5, 4, 3, 2, 1, 0]
      ∧ ∃ colors : List RGBA, GeneratePalette 2 [7, 6, 5, 4, 3, 2, 1, 0] = Outcome.ok colors
          ∧ colors.length = (2 : Int).toNat := by
  have hp : IsPermOfCube (findEdge 2) [7, 6, 5, 4, 3, 2, 1, 0] := by
    rw [findEdge_two]
    exact (List.reverse_perm (indices (2 * 2 * 2))).symm.symm
  exact ⟨hp, (GeneratePalette_succeeds_upto_1980 2 (by decide) (by decide) _ hp).2.2.2⟩

end PaletteGenerator
